import Mathlib

/-!
Verification of the partial-update (column mode) apply path of
`be/src/storage/rowset_column_update_state.h`, the Iceberg position-delete
builders of `be/src/exec/iceberg/iceberg_delete_builder.cpp`, and the
`json_each` table function of `be/src/exprs/table_function/json_each.cpp`,
shallowly embedded in Lean.

Machine integers (`uint64_t`, `uint32_t`, `int64_t`) are modelled as `Nat`
(resp. `Int` for `int64_t`); where a claim depends on the value range of a
C++ type, the range bound appears as an explicit hypothesis.  `std::map` is
modelled as an association list with insert-or-assign update (keys stay
pairwise distinct); `std::set` is modelled as a `Finset`.
-/

namespace StarRocks

/-- `UINT64_MAX`, the sentinel `build_rss_rowid_to_update_rowid` compares
`src_rss_rowids` entries against: a value equal to it means the key was not
found in the primary index. -/
def UINT64_MAX : Nat := 2 ^ 64 - 1

/-- Model of `std::map<uint64_t, uint32_t>::operator[] = v`: replace the
value when the key is present, append the binding otherwise. -/
def mapInsert : List (Nat × Nat) → Nat → Nat → List (Nat × Nat)
  | [], k, v => [(k, v)]
  | (k', v') :: rest, k, v =>
      if k' = k then (k, v) :: rest else (k', v') :: mapInsert rest k v

/-- Model of `std::map::find`: the value bound to `k`, if any. -/
def mapLookup : List (Nat × Nat) → Nat → Option Nat
  | [], _ => none
  | (k', v') :: rest, k => if k' = k then some v' else mapLookup rest k

/-- The loop body of `ColumnPartialUpdateState::build_rss_rowid_to_update_rowid`
(rowset_column_update_state.h, lines 69-78): walk `src_rss_rowids` with the
running update-row id `upt_row_id`; an entry `< UINT64_MAX` is entered into
the map (insert-or-assign), any other entry's index is appended to
`insert_rowids`. -/
def buildLoop (m : List (Nat × Nat)) (ins : List Nat) :
    List Nat → Nat → List (Nat × Nat) × List Nat
  | [], _ => (m, ins)
  | x :: xs, upt_row_id =>
      if x < UINT64_MAX then
        buildLoop (mapInsert m x upt_row_id) ins xs (upt_row_id + 1)
      else
        buildLoop m (ins ++ [upt_row_id]) xs (upt_row_id + 1)

/-- `ColumnPartialUpdateState` (rowset_column_update_state.h, lines 54-80).
`EditVersion` is modelled as a `Nat` version token. -/
structure ColumnPartialUpdateState where
  inited : Bool := false
  src_rss_rowids : List Nat := []
  read_version : Nat := 0
  rss_rowid_to_update_rowid : List (Nat × Nat) := []
  insert_rowids : List Nat := []
deriving Repr, DecidableEq

/-- `ColumnPartialUpdateState::build_rss_rowid_to_update_rowid`: clear the
map and the insert list, then run the loop over `src_rss_rowids` from
`upt_row_id = 0`. -/
def ColumnPartialUpdateState.build_rss_rowid_to_update_rowid
    (s : ColumnPartialUpdateState) : ColumnPartialUpdateState :=
  let r := buildLoop [] [] s.src_rss_rowids 0
  { s with rss_rowid_to_update_rowid := r.1, insert_rowids := r.2 }

example :
    (buildLoop [] [] [5, UINT64_MAX, 5, 7] 0) =
      ([(5, 2), (7, 3)], [1]) := by decide

/-- The found entries of `src` paired with their update-row ids, starting
from update-row id `i0`: the bindings the loop inserts, in loop order. -/
def enumFound : List Nat → Nat → List (Nat × Nat)
  | [], _ => []
  | x :: xs, i =>
      if x < UINT64_MAX then (x, i) :: enumFound xs (i + 1) else enumFound xs (i + 1)

/-- The update-row ids of the not-found entries of `src`, starting from
update-row id `i0`: the indices the loop appends to `insert_rowids`. -/
def notFoundIdx : List Nat → Nat → List Nat
  | [], _ => []
  | x :: xs, i =>
      if x < UINT64_MAX then notFoundIdx xs (i + 1) else i :: notFoundIdx xs (i + 1)

/-- The update-row id of the last occurrence of `v` in `src`, counting from
`i0`: the binding that survives the loop's insert-or-assign updates. -/
def lastFoundIdx (v : Nat) : List Nat → Nat → Option Nat
  | [], _ => none
  | x :: xs, i =>
      match lastFoundIdx v xs (i + 1) with
      | some j => some j
      | none => if x = v then some i else none

lemma mapLookup_mapInsert (m : List (Nat × Nat)) (k v k' : Nat) :
    mapLookup (mapInsert m k v) k' = if k = k' then some v else mapLookup m k' := by
  induction m with
  | nil => simp [mapInsert, mapLookup]
  | cons p rest ih =>
      obtain ⟨a, b⟩ := p
      by_cases hak : a = k
      · subst hak
        rw [mapInsert, if_pos rfl]
        by_cases hk : a = k'
        · simp [mapLookup, hk]
        · simp [mapLookup, hk]
      · rw [mapInsert, if_neg hak]
        by_cases ha : a = k'
        · subst ha
          have : ¬ k = a := fun h => hak h.symm
          simp [mapLookup, this]
        · simp [mapLookup, ha, ih]

lemma mapInsert_of_forall_ne {m : List (Nat × Nat)} {k : Nat} (v : Nat)
    (h : ∀ p ∈ m, p.1 ≠ k) : mapInsert m k v = m ++ [(k, v)] := by
  induction m with
  | nil => rfl
  | cons p rest ih =>
      obtain ⟨a, b⟩ := p
      have ha : a ≠ k := h (a, b) (List.mem_cons_self _ _)
      rw [mapInsert, if_neg ha]
      simp only [List.cons_append, List.cons.injEq, true_and]
      exact ih fun q hq => h q (List.mem_cons_of_mem _ hq)

lemma mem_mapInsert {m : List (Nat × Nat)} {k v : Nat} {p : Nat × Nat}
    (h : p ∈ mapInsert m k v) : p = (k, v) ∨ p ∈ m := by
  induction m with
  | nil => simp [mapInsert] at h; simp [h]
  | cons q rest ih =>
      obtain ⟨a, b⟩ := q
      by_cases hak : a = k
      · rw [mapInsert, if_pos hak] at h
        rcases List.mem_cons.mp h with rfl | h'
        · exact Or.inl rfl
        · exact Or.inr (List.mem_cons_of_mem _ h')
      · rw [mapInsert, if_neg hak] at h
        rcases List.mem_cons.mp h with rfl | h'
        · exact Or.inr (List.mem_cons_self _ _)
        · rcases ih h' with h'' | h''
          · exact Or.inl h''
          · exact Or.inr (List.mem_cons_of_mem _ h'')

lemma buildLoop_snd (src : List Nat) :
    ∀ (i0 : Nat) (m : List (Nat × Nat)) (ins : List Nat),
      (buildLoop m ins src i0).2 = ins ++ notFoundIdx src i0 := by
  induction src with
  | nil => intro i0 m ins; simp [buildLoop, notFoundIdx]
  | cons x xs ih =>
      intro i0 m ins
      by_cases hx : x < UINT64_MAX
      · rw [buildLoop, if_pos hx, notFoundIdx, if_pos hx]
        exact ih (i0 + 1) _ _
      · rw [buildLoop, if_neg hx, notFoundIdx, if_neg hx, ih (i0 + 1) _ _]
        simp

lemma notFoundIdx_ge {src : List Nat} {i0 b : Nat} (h : b ∈ notFoundIdx src i0) :
    i0 ≤ b := by
  induction src generalizing i0 with
  | nil => simp [notFoundIdx] at h
  | cons x xs ih =>
      by_cases hx : x < UINT64_MAX
      · rw [notFoundIdx, if_pos hx] at h
        exact le_trans (Nat.le_succ i0) (ih h)
      · rw [notFoundIdx, if_neg hx] at h
        rcases List.mem_cons.mp h with rfl | h'
        · exact le_refl _
        · exact le_trans (Nat.le_succ i0) (ih h')

lemma notFoundIdx_pairwise (src : List Nat) (i0 : Nat) :
    List.Pairwise (· < ·) (notFoundIdx src i0) := by
  induction src generalizing i0 with
  | nil => simp [notFoundIdx]
  | cons x xs ih =>
      by_cases hx : x < UINT64_MAX
      · rw [notFoundIdx, if_pos hx]; exact ih (i0 + 1)
      · rw [notFoundIdx, if_neg hx]
        refine List.Pairwise.cons (fun b hb => ?_) (ih (i0 + 1))
        have := notFoundIdx_ge hb
        omega

lemma mem_notFoundIdx {src : List Nat} {i0 i : Nat} :
    i ∈ notFoundIdx src i0 ↔
      ∃ k, k < src.length ∧ i = i0 + k ∧ ¬ src.getD k 0 < UINT64_MAX := by
  induction src generalizing i0 with
  | nil => simp [notFoundIdx]
  | cons x xs ih =>
      by_cases hx : x < UINT64_MAX
      · rw [notFoundIdx, if_pos hx, ih]
        constructor
        · rintro ⟨k, hk, rfl, hnd⟩
          exact ⟨k + 1, by simpa using hk, by omega, by simpa using hnd⟩
        · rintro ⟨k, hk, rfl, hnd⟩
          match k with
          | 0 => exact absurd hx (by simpa using hnd)
          | k' + 1 =>
              exact ⟨k', by simpa using hk, by omega, by simpa using hnd⟩
      · rw [notFoundIdx, if_neg hx]
        constructor
        · intro h
          rcases List.mem_cons.mp h with rfl | h'
          · exact ⟨0, by simp, by omega, by simpa using hx⟩
          · obtain ⟨k, hk, rfl, hnd⟩ := ih.mp h'
            exact ⟨k + 1, by simpa using hk, by omega, by simpa using hnd⟩
        · rintro ⟨k, hk, rfl, hnd⟩
          match k with
          | 0 => simp
          | k' + 1 =>
              exact List.mem_cons_of_mem _
                (ih.mpr ⟨k', by simpa using hk, by omega, by simpa using hnd⟩)

lemma enumFound_snd_ge {src : List Nat} {i0 : Nat} {p : Nat × Nat}
    (h : p ∈ enumFound src i0) : i0 ≤ p.2 := by
  induction src generalizing i0 with
  | nil => simp [enumFound] at h
  | cons x xs ih =>
      by_cases hx : x < UINT64_MAX
      · rw [enumFound, if_pos hx] at h
        rcases List.mem_cons.mp h with rfl | h'
        · exact le_refl _
        · exact le_trans (Nat.le_succ i0) (ih h')
      · rw [enumFound, if_neg hx] at h
        exact le_trans (Nat.le_succ i0) (ih h)

lemma enumFound_length_add (src : List Nat) (i0 : Nat) :
    (enumFound src i0).length + (notFoundIdx src i0).length = src.length := by
  induction src generalizing i0 with
  | nil => simp [enumFound, notFoundIdx]
  | cons x xs ih =>
      by_cases hx : x < UINT64_MAX
      · rw [enumFound, if_pos hx, notFoundIdx, if_pos hx]
        simp only [List.length_cons]
        have := ih (i0 + 1)
        omega
      · rw [enumFound, if_neg hx, notFoundIdx, if_neg hx]
        simp only [List.length_cons]
        have := ih (i0 + 1)
        omega

lemma mem_enumFound_or_notFoundIdx (src : List Nat) (i0 i : Nat) :
    (i ∈ (enumFound src i0).map Prod.snd ∨ i ∈ notFoundIdx src i0) ↔
      i0 ≤ i ∧ i < i0 + src.length := by
  induction src generalizing i0 with
  | nil => simp [enumFound, notFoundIdx]
  | cons x xs ih =>
      by_cases hx : x < UINT64_MAX
      · rw [enumFound, if_pos hx, notFoundIdx, if_pos hx]
        simp only [List.map_cons, List.mem_cons, List.length_cons]
        constructor
        · rintro (h | h)
          · rcases h with rfl | h'
            · omega
            · have := (ih (i0 + 1)).mp (Or.inl h'); omega
          · have := (ih (i0 + 1)).mp (Or.inr h); omega
        · intro hle
          by_cases hi : i = i0
          · exact Or.inl (Or.inl hi)
          · rcases (ih (i0 + 1)).mpr (by omega) with h | h
            · exact Or.inl (Or.inr h)
            · exact Or.inr h
      · rw [enumFound, if_neg hx, notFoundIdx, if_neg hx]
        simp only [List.mem_cons, List.length_cons]
        constructor
        · rintro (h | h)
          · have := (ih (i0 + 1)).mp (Or.inl h); omega
          · rcases h with rfl | h'
            · omega
            · have := (ih (i0 + 1)).mp (Or.inr h'); omega
        · intro hle
          by_cases hi : i = i0
          · exact Or.inr (Or.inl hi)
          · rcases (ih (i0 + 1)).mpr (by omega) with h | h
            · exact Or.inl h
            · exact Or.inr (Or.inr h)

lemma enumFound_disjoint_notFoundIdx {src : List Nat} {i0 i : Nat}
    (h : i ∈ (enumFound src i0).map Prod.snd) : i ∉ notFoundIdx src i0 := by
  induction src generalizing i0 with
  | nil => simp [enumFound] at h
  | cons x xs ih =>
      by_cases hx : x < UINT64_MAX
      · rw [enumFound, if_pos hx] at h
        rw [notFoundIdx, if_pos hx]
        simp only [List.map_cons, List.mem_cons] at h
        rcases h with rfl | h'
        · intro hmem
          have := notFoundIdx_ge hmem
          omega
        · exact ih h'
      · rw [enumFound, if_neg hx] at h
        rw [notFoundIdx, if_neg hx]
        intro hmem
        rcases List.mem_cons.mp hmem with rfl | h'
        · obtain ⟨p, hp, rfl⟩ := List.mem_map.mp h
          have := enumFound_snd_ge hp
          omega
        · exact ih h h'

lemma buildLoop_fst (src : List Nat) :
    ∀ (i0 : Nat) (m : List (Nat × Nat)) (ins : List Nat),
      (∀ p ∈ m, ∀ x ∈ src, x < UINT64_MAX → p.1 ≠ x) →
      src.Pairwise (fun a b => a < UINT64_MAX → b < UINT64_MAX → a ≠ b) →
      (buildLoop m ins src i0).1 = m ++ enumFound src i0 := by
  induction src with
  | nil => intro i0 m ins _ _; simp [buildLoop, enumFound]
  | cons x xs ih =>
      intro i0 m ins hm hnd
      rcases List.pairwise_cons.mp hnd with ⟨hx_rest, hnd'⟩
      by_cases hx : x < UINT64_MAX
      · rw [buildLoop, if_pos hx, enumFound, if_pos hx]
        rw [ih (i0 + 1) (mapInsert m x i0) ins ?_ hnd']
        · rw [mapInsert_of_forall_ne i0
            (fun p hp => hm p hp x (List.mem_cons_self _ _) hx)]
          simp
        · intro p hp y hy hylt
          rcases mem_mapInsert hp with rfl | hp'
          · exact fun h => hx_rest y hy hx hylt h
          · exact hm p hp' y (List.mem_cons_of_mem _ hy) hylt
      · rw [buildLoop, if_neg hx, enumFound, if_neg hx]
        exact ih (i0 + 1) m (ins ++ [i0])
          (fun p hp y hy => hm p hp y (List.mem_cons_of_mem _ hy)) hnd'

lemma lastFoundIdx_some {v : Nat} {src : List Nat} {i0 k : Nat}
    (h : lastFoundIdx v src i0 = some k) :
    i0 ≤ k ∧ k - i0 < src.length ∧ src.getD (k - i0) 0 = v := by
  induction src generalizing i0 with
  | nil => simp [lastFoundIdx] at h
  | cons x xs ih =>
      rw [lastFoundIdx] at h
      cases hrec : lastFoundIdx v xs (i0 + 1) with
      | some j =>
          rw [hrec] at h
          cases h
          obtain ⟨h1, h2, h3⟩ := ih hrec
          refine ⟨by omega, by simp only [List.length_cons]; omega, ?_⟩
          have hk : k - i0 = (k - (i0 + 1)) + 1 := by omega
          rw [hk, List.getD_cons_succ]
          exact h3
      | none =>
          rw [hrec] at h
          by_cases hxv : x = v
          · rw [if_pos hxv] at h
            cases h
            refine ⟨le_refl _, by simp, ?_⟩
            simpa using hxv
          · rw [if_neg hxv] at h
            exact absurd h (by simp)

lemma lastFoundIdx_none {v : Nat} {src : List Nat} {i0 : Nat}
    (h : lastFoundIdx v src i0 = none) :
    ∀ l, l < src.length → src.getD l 0 ≠ v := by
  induction src generalizing i0 with
  | nil => intro l hl; simp at hl
  | cons x xs ih =>
      rw [lastFoundIdx] at h
      cases hrec : lastFoundIdx v xs (i0 + 1) with
      | some j => rw [hrec] at h; exact absurd h (by simp)
      | none =>
          rw [hrec] at h
          by_cases hxv : x = v
          · rw [if_pos hxv] at h; exact absurd h (by simp)
          · intro l hl
            match l with
            | 0 => simpa using hxv
            | l' + 1 =>
                rw [List.getD_cons_succ]
                exact ih hrec l' (by simpa using hl)

lemma lastFoundIdx_maximal {v : Nat} {src : List Nat} {i0 k : Nat}
    (h : lastFoundIdx v src i0 = some k) :
    ∀ l, l < src.length → src.getD l 0 = v → i0 + l ≤ k := by
  induction src generalizing i0 with
  | nil => intro l hl; simp at hl
  | cons x xs ih =>
      rw [lastFoundIdx] at h
      cases hrec : lastFoundIdx v xs (i0 + 1) with
      | some j =>
          rw [hrec] at h
          cases h
          intro l hl hv
          match l with
          | 0 => have := (lastFoundIdx_some hrec).1; omega
          | l' + 1 =>
              have := ih hrec l' (by simpa using hl) (by simpa using hv)
              omega
      | none =>
          rw [hrec] at h
          by_cases hxv : x = v
          · rw [if_pos hxv] at h
            cases h
            intro l hl hv
            match l with
            | 0 => omega
            | l' + 1 =>
                exact absurd (by simpa using hv)
                  (lastFoundIdx_none hrec l' (by simpa using hl))
          · rw [if_neg hxv] at h
            exact absurd h (by simp)

lemma buildLoop_lookup {v : Nat} (hv : v < UINT64_MAX) (src : List Nat) :
    ∀ (i0 : Nat) (m : List (Nat × Nat)) (ins : List Nat),
      mapLookup (buildLoop m ins src i0).1 v =
        (lastFoundIdx v src i0).elim (mapLookup m v) some := by
  induction src with
  | nil => intro i0 m ins; simp [buildLoop, lastFoundIdx]
  | cons x xs ih =>
      intro i0 m ins
      by_cases hx : x < UINT64_MAX
      · rw [buildLoop, if_pos hx, ih (i0 + 1), lastFoundIdx]
        cases hrec : lastFoundIdx v xs (i0 + 1) with
        | some j => simp
        | none =>
            simp only [Option.elim_none]
            rw [mapLookup_mapInsert]
            by_cases hxv : x = v
            · rw [if_pos hxv, if_pos hxv]; simp
            · rw [if_neg hxv, if_neg hxv]; simp
      · rw [buildLoop, if_neg hx, ih (i0 + 1), lastFoundIdx]
        have hxv : ¬ x = v := by omega
        cases hrec : lastFoundIdx v xs (i0 + 1) with
        | some j => simp
        | none => simp [hxv]

lemma build_insert_rowids_eq (s : ColumnPartialUpdateState) :
    s.build_rss_rowid_to_update_rowid.insert_rowids =
      notFoundIdx s.src_rss_rowids 0 := by
  show (buildLoop [] [] s.src_rss_rowids 0).2 = _
  rw [buildLoop_snd]
  simp

lemma build_map_eq (s : ColumnPartialUpdateState)
    (hnd : s.src_rss_rowids.Pairwise
      (fun a b => a < UINT64_MAX → b < UINT64_MAX → a ≠ b)) :
    s.build_rss_rowid_to_update_rowid.rss_rowid_to_update_rowid =
      enumFound s.src_rss_rowids 0 := by
  show (buildLoop [] [] s.src_rss_rowids 0).1 = _
  rw [buildLoop_fst s.src_rss_rowids 0 [] [] (by simp) hnd]
  simp

lemma getD_mem_of_lt {l : List Nat} {i : Nat} (h : i < l.length) :
    l.getD i 0 ∈ l := by
  induction l generalizing i with
  | nil => simp at h
  | cons x xs ih =>
      match i with
      | 0 => simp
      | n + 1 =>
          rw [List.getD_cons_succ]
          exact List.mem_cons_of_mem _ (ih (by simpa using h))

/-- C1, counterexample: the claim fails when two update rows carry the same
found source row id.  With `src_rss_rowids = [5, 5]`,
`build_rss_rowid_to_update_rowid` produces a one-entry map and an empty
`insert_rowids`, so the sizes do not add up to `|src_rss_rowids| = 2` and
update-row index 0 appears neither among the map's values nor in
`insert_rowids`. -/
theorem C1_build_partition_counterexample :
    ¬ ((({ src_rss_rowids := [5, 5] } :
            ColumnPartialUpdateState).build_rss_rowid_to_update_rowid.rss_rowid_to_update_rowid.length
          + ({ src_rss_rowids := [5, 5] } :
            ColumnPartialUpdateState).build_rss_rowid_to_update_rowid.insert_rowids.length
          = 2)
        ∧ ((0 ∈ ({ src_rss_rowids := [5, 5] } :
            ColumnPartialUpdateState).build_rss_rowid_to_update_rowid.rss_rowid_to_update_rowid.map Prod.snd
          ∨ 0 ∈ ({ src_rss_rowids := [5, 5] } :
            ColumnPartialUpdateState).build_rss_rowid_to_update_rowid.insert_rowids)
          ↔ 0 < 2)) := by
  decide

/-- C1 (amended): for every `ColumnPartialUpdateState` whose found source
row ids (entries `< UINT64_MAX` of `src_rss_rowids`) are pairwise distinct,
after `build_rss_rowid_to_update_rowid` runs the size of
`rss_rowid_to_update_rowid` plus the size of `insert_rowids` equals the size
of `src_rss_rowids`, and the update-row indices appearing as values of the
map together with the indices in `insert_rowids` partition
`{0, ..., len(src_rss_rowids)-1}`: their union is exactly that range and
they are disjoint. -/
theorem C1_build_partition (s : ColumnPartialUpdateState)
    (hnd : s.src_rss_rowids.Pairwise
      (fun a b => a < UINT64_MAX → b < UINT64_MAX → a ≠ b)) :
    (s.build_rss_rowid_to_update_rowid.rss_rowid_to_update_rowid.length
        + s.build_rss_rowid_to_update_rowid.insert_rowids.length
        = s.src_rss_rowids.length)
    ∧ (∀ i, (i ∈ s.build_rss_rowid_to_update_rowid.rss_rowid_to_update_rowid.map Prod.snd
          ∨ i ∈ s.build_rss_rowid_to_update_rowid.insert_rowids)
        ↔ i < s.src_rss_rowids.length)
    ∧ (∀ i, i ∈ s.build_rss_rowid_to_update_rowid.rss_rowid_to_update_rowid.map Prod.snd
        → i ∉ s.build_rss_rowid_to_update_rowid.insert_rowids) := by
  rw [build_map_eq s hnd, build_insert_rowids_eq]
  refine ⟨enumFound_length_add _ 0, fun i => ?_,
    fun i h => enumFound_disjoint_notFoundIdx h⟩
  rw [mem_enumFound_or_notFoundIdx]
  omega

/-- Witness for C1 (amended) at `src_rss_rowids = [5, UINT64_MAX, 7]`. -/
theorem C1_build_partition_witness :
    (({ src_rss_rowids := [5, UINT64_MAX, 7] } :
        ColumnPartialUpdateState).build_rss_rowid_to_update_rowid.rss_rowid_to_update_rowid.length
        + ({ src_rss_rowids := [5, UINT64_MAX, 7] } :
        ColumnPartialUpdateState).build_rss_rowid_to_update_rowid.insert_rowids.length
        = ({ src_rss_rowids := [5, UINT64_MAX, 7] } :
        ColumnPartialUpdateState).src_rss_rowids.length)
    ∧ (∀ i, (i ∈ ({ src_rss_rowids := [5, UINT64_MAX, 7] } :
          ColumnPartialUpdateState).build_rss_rowid_to_update_rowid.rss_rowid_to_update_rowid.map Prod.snd
          ∨ i ∈ ({ src_rss_rowids := [5, UINT64_MAX, 7] } :
          ColumnPartialUpdateState).build_rss_rowid_to_update_rowid.insert_rowids)
        ↔ i < ({ src_rss_rowids := [5, UINT64_MAX, 7] } :
          ColumnPartialUpdateState).src_rss_rowids.length)
    ∧ (∀ i, i ∈ ({ src_rss_rowids := [5, UINT64_MAX, 7] } :
          ColumnPartialUpdateState).build_rss_rowid_to_update_rowid.rss_rowid_to_update_rowid.map Prod.snd
        → i ∉ ({ src_rss_rowids := [5, UINT64_MAX, 7] } :
          ColumnPartialUpdateState).build_rss_rowid_to_update_rowid.insert_rowids) :=
  C1_build_partition { src_rss_rowids := [5, UINT64_MAX, 7] } (by decide)

/-- C3: if two distinct update-row indices `i < j` hold the same found
source row id `v = src_rss_rowids[i] = src_rss_rowids[j] < UINT64_MAX`,
then after `build_rss_rowid_to_update_rowid` the map sends `v` to the
largest update-row index holding `v`: the later update row wins. -/
theorem C3_last_write_wins (s : ColumnPartialUpdateState) (v i j : Nat)
    (_hij : i < j) (hj : j < s.src_rss_rowids.length)
    (_hiv : s.src_rss_rowids.getD i 0 = v) (hjv : s.src_rss_rowids.getD j 0 = v)
    (hv : v < UINT64_MAX) :
    ∃ k, mapLookup s.build_rss_rowid_to_update_rowid.rss_rowid_to_update_rowid v
        = some k
      ∧ k < s.src_rss_rowids.length
      ∧ s.src_rss_rowids.getD k 0 = v
      ∧ j ≤ k
      ∧ ∀ l, l < s.src_rss_rowids.length → s.src_rss_rowids.getD l 0 = v →
          l ≤ k := by
  have hlk : mapLookup s.build_rss_rowid_to_update_rowid.rss_rowid_to_update_rowid v
      = (lastFoundIdx v s.src_rss_rowids 0).elim none some := by
    show mapLookup (buildLoop [] [] s.src_rss_rowids 0).1 v = _
    rw [buildLoop_lookup hv]
    rfl
  cases hL : lastFoundIdx v s.src_rss_rowids 0 with
  | none => exact absurd hjv (lastFoundIdx_none hL j hj)
  | some k =>
      rw [hL] at hlk
      obtain ⟨-, hk2, hk3⟩ := lastFoundIdx_some hL
      have hmax := lastFoundIdx_maximal hL
      refine ⟨k, by simpa using hlk, by simpa using hk2, by simpa using hk3,
        ?_, ?_⟩
      · have := hmax j hj hjv; omega
      · intro l hl hlv
        have := hmax l hl hlv; omega

/-- Witness for C3 at `src_rss_rowids = [5, 5]`, `v = 5`, `i = 0`, `j = 1`:
the map sends 5 to update-row index 1. -/
theorem C3_last_write_wins_witness :
    ∃ k, mapLookup (({ src_rss_rowids := [5, 5] } :
          ColumnPartialUpdateState).build_rss_rowid_to_update_rowid).rss_rowid_to_update_rowid 5
        = some k
      ∧ k < (({ src_rss_rowids := [5, 5] } :
          ColumnPartialUpdateState)).src_rss_rowids.length
      ∧ (({ src_rss_rowids := [5, 5] } :
          ColumnPartialUpdateState)).src_rss_rowids.getD k 0 = 5
      ∧ 1 ≤ k
      ∧ ∀ l, l < (({ src_rss_rowids := [5, 5] } :
            ColumnPartialUpdateState)).src_rss_rowids.length →
          (({ src_rss_rowids := [5, 5] } :
            ColumnPartialUpdateState)).src_rss_rowids.getD l 0 = 5 → l ≤ k :=
  C3_last_write_wins { src_rss_rowids := [5, 5] } 5 0 1 (by decide) (by decide)
    (by decide) (by decide) (by decide)

/-- C4: after `build_rss_rowid_to_update_rowid`, an index `i` is an element
of `insert_rowids` iff `src_rss_rowids[i] = UINT64_MAX` (the NOT_FOUND
sentinel), every element of `insert_rowids` is a valid index, and
`insert_rowids` lists those indices in encounter order, i.e. strictly
ascending.  The hypothesis `hle` is the `uint64_t` value range of
`src_rss_rowids`'s entries. -/
theorem C4_insert_rowids_not_found (s : ColumnPartialUpdateState)
    (hle : ∀ x ∈ s.src_rss_rowids, x ≤ UINT64_MAX) :
    (∀ i, i < s.src_rss_rowids.length →
        (i ∈ s.build_rss_rowid_to_update_rowid.insert_rowids ↔
          s.src_rss_rowids.getD i 0 = UINT64_MAX))
    ∧ (∀ i ∈ s.build_rss_rowid_to_update_rowid.insert_rowids,
        i < s.src_rss_rowids.length)
    ∧ List.Pairwise (· < ·) s.build_rss_rowid_to_update_rowid.insert_rowids := by
  rw [build_insert_rowids_eq]
  refine ⟨?_, ?_, notFoundIdx_pairwise _ 0⟩
  · intro i hi
    rw [mem_notFoundIdx]
    constructor
    · rintro ⟨k, hk, hik, hnd⟩
      have hki : k = i := by omega
      subst hki
      have hmem := getD_mem_of_lt (l := s.src_rss_rowids) hk
      have := hle _ hmem
      omega
    · intro h
      refine ⟨i, hi, by omega, ?_⟩
      rw [h]
      exact lt_irrefl _
  · intro i hi
    obtain ⟨k, hk, hik, -⟩ := mem_notFoundIdx.mp hi
    omega

/-- Witness for C4 at `src_rss_rowids = [5, UINT64_MAX]`. -/
theorem C4_insert_rowids_not_found_witness :
    (∀ i, i < (({ src_rss_rowids := [5, UINT64_MAX] } :
          ColumnPartialUpdateState)).src_rss_rowids.length →
        (i ∈ (({ src_rss_rowids := [5, UINT64_MAX] } :
            ColumnPartialUpdateState)).build_rss_rowid_to_update_rowid.insert_rowids ↔
          (({ src_rss_rowids := [5, UINT64_MAX] } :
            ColumnPartialUpdateState)).src_rss_rowids.getD i 0 = UINT64_MAX))
    ∧ (∀ i ∈ (({ src_rss_rowids := [5, UINT64_MAX] } :
          ColumnPartialUpdateState)).build_rss_rowid_to_update_rowid.insert_rowids,
        i < (({ src_rss_rowids := [5, UINT64_MAX] } :
          ColumnPartialUpdateState)).src_rss_rowids.length)
    ∧ List.Pairwise (· < ·) (({ src_rss_rowids := [5, UINT64_MAX] } :
        ColumnPartialUpdateState)).build_rss_rowid_to_update_rowid.insert_rowids :=
  C4_insert_rowids_not_found { src_rss_rowids := [5, UINT64_MAX] } (by decide)

/-- Model of `starrocks::Status`: OK, the end-of-file sentinel, or an error
carrying a message (the several non-OK, non-EOF codes are not distinguished
further). -/
inductive Status where
  | ok
  | endOfFile
  | err (msg : String)
deriving Repr, DecidableEq

/-- `Status::ok()`. -/
def Status.is_ok : Status → Bool
  | .ok => true
  | _ => false

/-- `Status::is_end_of_file()`. -/
def Status.is_end_of_file : Status → Bool
  | .endOfFile => true
  | _ => false

lemma is_end_of_file_false_iff {s : Status} :
    s.is_end_of_file = false ↔ s ≠ Status.endOfFile := by
  cases s <;> simp [Status.is_end_of_file]

/-- Modelled from the spec: the body of `RowsetColumnUpdateState::load` is
not in the excerpt — rowset_column_update_state.h (lines 126-129, 212-213)
only declares `load` together with the members `std::once_flag
_load_once_flag` and `Status _status`.  Per the spec (§4.1, §5), `load` is
an execute-once gate: the first caller runs the actual load (`do_load`
below, `_do_load` in the source) and records its status in `_status`; every
later call is a no-op that replays the recorded status, success or failure
alike.  The gate serializes racing callers, so a race is modelled as the
sequential composition the gate enforces.  `σ` is the type of the rest of
the instance's state; `load_fired` models whether `_load_once_flag` has
already fired. -/
structure RowsetColumnUpdateState (σ : Type) where
  load_fired : Bool
  status : Status
  inner : σ

/-- `RowsetColumnUpdateState::load`, modelled from the spec as the one-shot
gate around `do_load`. -/
def RowsetColumnUpdateState.load {σ : Type} (do_load : σ → σ × Status)
    (s : RowsetColumnUpdateState σ) : RowsetColumnUpdateState σ × Status :=
  if s.load_fired then (s, s.status)
  else
    let r := do_load s.inner
    ({ load_fired := true, status := r.2, inner := r.1 }, r.2)

/-- C2 (spec-modelled): a second call to `load()` on an instance whose load
has completed returns exactly the status recorded by the first call
(including a recorded failure) and does not change the instance's state; the
second call's outcome does not depend on the loader at all (`do_load'` is
arbitrary), so only the first call performs the load, and in the serialized
order the one-shot gate imposes on racing callers both observe the same
completed result. -/
theorem C2_load_one_shot {σ : Type} (do_load do_load' : σ → σ × Status)
    (s : RowsetColumnUpdateState σ) :
    ((RowsetColumnUpdateState.load do_load s).1.load_fired = true)
    ∧ ((RowsetColumnUpdateState.load do_load'
          (RowsetColumnUpdateState.load do_load s).1).2
        = (RowsetColumnUpdateState.load do_load s).2)
    ∧ ((RowsetColumnUpdateState.load do_load'
          (RowsetColumnUpdateState.load do_load s).1).1
        = (RowsetColumnUpdateState.load do_load s).1) := by
  by_cases h : s.load_fired
  · simp [RowsetColumnUpdateState.load, h]
  · simp [RowsetColumnUpdateState.load, h]

/-- Prefix sums: `prefixSums acc [n₁, n₂, ...] = [acc, acc + n₁,
acc + n₁ + n₂, ...]`, with the closing total as last entry. -/
def prefixSums (acc : Nat) : List Nat → List Nat
  | [] => [acc]
  | n :: ns => acc :: prefixSums (acc + n) ns

/-- `BatchPKs` (rowset_column_update_state.h, lines 85-106): the
concatenated primary keys of update segments `[start_idx, end_idx)`, each
key's probe result, and per-segment offsets into `upserts`.  Keys are
opaque; they are modelled as `Nat`. -/
structure BatchPKs where
  upserts : List Nat
  start_idx : Nat
  end_idx : Nat
  src_rss_rowids : List Nat
  offsets : List Nat

/-- Modelled from the spec: the body of
`RowsetColumnUpdateState::_load_upserts`, which fills a `BatchPKs`, is not
in the excerpt (the header only declares it).  Per the spec (§3 KeyBatch,
§4.1, §4.2), a batch for the consecutive segments
`[start_idx, start_idx + |segKeys|)` concatenates the segments' key columns
into `upserts`, records each segment's start position in `offsets` — the
prefix sums of the per-segment key counts, closed by the total length — and
holds one primary-index probe result per key in `src_rss_rowids` (`probe`
stands for the abstract index probe). -/
def mkBatchPKs (start_idx : Nat) (segKeys : List (List Nat))
    (probe : Nat → Nat) : BatchPKs where
  upserts := segKeys.flatten
  start_idx := start_idx
  end_idx := start_idx + segKeys.length
  src_rss_rowids := segKeys.flatten.map probe
  offsets := prefixSums 0 (segKeys.map List.length)

lemma prefixSums_length (ns : List Nat) :
    ∀ acc, (prefixSums acc ns).length = ns.length + 1 := by
  induction ns with
  | nil => intro acc; simp [prefixSums]
  | cons n ns ih => intro acc; simp [prefixSums, ih]

lemma prefixSums_ge {ns : List Nat} :
    ∀ {acc b}, b ∈ prefixSums acc ns → acc ≤ b := by
  induction ns with
  | nil => intro acc b h; simp [prefixSums] at h; omega
  | cons n ns ih =>
      intro acc b h
      rw [prefixSums] at h
      rcases List.mem_cons.mp h with rfl | h'
      · exact le_refl _
      · have := ih h'; omega

lemma prefixSums_pairwise (ns : List Nat) :
    ∀ acc, List.Pairwise (· ≤ ·) (prefixSums acc ns) := by
  induction ns with
  | nil => intro acc; simp [prefixSums]
  | cons n ns ih =>
      intro acc
      rw [prefixSums]
      refine List.Pairwise.cons (fun b hb => ?_) (ih (acc + n))
      have := prefixSums_ge hb
      omega

lemma prefixSums_ne_nil (acc : Nat) (ns : List Nat) : prefixSums acc ns ≠ [] := by
  cases ns <;> simp [prefixSums]

lemma prefixSums_getLast? (ns : List Nat) :
    ∀ acc, (prefixSums acc ns).getLast? = some (acc + ns.sum) := by
  induction ns with
  | nil => intro acc; simp [prefixSums]
  | cons n ns ih =>
      intro acc
      rw [prefixSums]
      rcases hns : prefixSums (acc + n) ns with _ | ⟨b, t⟩
      · exact absurd hns (prefixSums_ne_nil _ _)
      · rw [List.getLast?_cons_cons, ← hns, ih (acc + n)]
        congr 1
        simp [List.sum_cons]
        omega

/-- C5 (spec-modelled): every `BatchPKs` produced by a successful load
satisfies: `offsets` has exactly `(end_idx - start_idx) + 1` entries, the
entries are non-decreasing, the last entry equals the length of `upserts`,
and `src_rss_rowids` (once probed) has the same length as `upserts`. -/
theorem C5_batch_pks_invariant (start_idx : Nat) (segKeys : List (List Nat))
    (probe : Nat → Nat) :
    ((mkBatchPKs start_idx segKeys probe).offsets.length
      = ((mkBatchPKs start_idx segKeys probe).end_idx
          - (mkBatchPKs start_idx segKeys probe).start_idx) + 1)
    ∧ List.Pairwise (· ≤ ·) (mkBatchPKs start_idx segKeys probe).offsets
    ∧ ((mkBatchPKs start_idx segKeys probe).offsets.getLast?
        = some (mkBatchPKs start_idx segKeys probe).upserts.length)
    ∧ ((mkBatchPKs start_idx segKeys probe).src_rss_rowids.length
        = (mkBatchPKs start_idx segKeys probe).upserts.length) := by
  refine ⟨?_, prefixSums_pairwise _ 0, ?_, ?_⟩
  · show (prefixSums 0 (segKeys.map List.length)).length
        = ((start_idx + segKeys.length) - start_idx) + 1
    rw [prefixSums_length]
    simp
  · show (prefixSums 0 (segKeys.map List.length)).getLast?
        = some segKeys.flatten.length
    rw [prefixSums_getLast?, List.length_flatten]
    simp
  · show (segKeys.flatten.map probe).length = segKeys.flatten.length
    exact List.length_map _ _

/-- Modelled from the spec: the body of
`RowsetColumnUpdateState::_check_and_resolve_conflict` is not in the excerpt
(rowset_column_update_state.h, lines 168-169, only declares it).  Per the
spec (§4.3), conflict resolution compares the state's version at load time
(`read_version`) with the `latest_applied_version` passed into `finalize()`;
when they are equal no conflict is possible and it returns at once without
re-probing; otherwise it re-probes the keys against the current primary
index (`reprobe` stands for the fresh probe pass over the state's keys),
stores the fresh probe results in `src_rss_rowids`, rebuilds the mapping
with the partition rule of `build_rss_rowid_to_update_rowid`, and records
the new version. -/
def ColumnPartialUpdateState.check_and_resolve_conflict
    (reprobe : List Nat → List Nat) (latest_applied_version : Nat)
    (s : ColumnPartialUpdateState) : ColumnPartialUpdateState :=
  if s.read_version = latest_applied_version then s
  else
    ({ s with
        src_rss_rowids := reprobe s.src_rss_rowids,
        read_version := latest_applied_version }).build_rss_rowid_to_update_rowid

/-- C6 (spec-modelled): if the version recorded at load time equals the
`latest_applied_version` passed into `finalize()`, conflict resolution
performs no re-probe and leaves the state's `src_rss_rowids`,
`rss_rowid_to_update_rowid` and `insert_rowids` exactly as they were — the
state is returned unchanged. -/
theorem C6_no_conflict_is_no_op (s : ColumnPartialUpdateState)
    (reprobe : List Nat → List Nat) (latest_applied_version : Nat)
    (h : s.read_version = latest_applied_version) :
    ((s.check_and_resolve_conflict reprobe latest_applied_version).src_rss_rowids
        = s.src_rss_rowids)
    ∧ ((s.check_and_resolve_conflict reprobe latest_applied_version).rss_rowid_to_update_rowid
        = s.rss_rowid_to_update_rowid)
    ∧ ((s.check_and_resolve_conflict reprobe latest_applied_version).insert_rowids
        = s.insert_rowids)
    ∧ (s.check_and_resolve_conflict reprobe latest_applied_version = s) := by
  rw [ColumnPartialUpdateState.check_and_resolve_conflict, if_pos h]
  exact ⟨rfl, rfl, rfl, rfl⟩

/-- Witness for C6 with a state loaded at version 3 resolved against
`latest_applied_version = 3`. -/
theorem C6_no_conflict_is_no_op_witness :
    ((({ src_rss_rowids := [5, UINT64_MAX], read_version := 3 } :
        ColumnPartialUpdateState).check_and_resolve_conflict (fun l => l) 3).src_rss_rowids
        = ({ src_rss_rowids := [5, UINT64_MAX], read_version := 3 } :
        ColumnPartialUpdateState).src_rss_rowids)
    ∧ ((({ src_rss_rowids := [5, UINT64_MAX], read_version := 3 } :
        ColumnPartialUpdateState).check_and_resolve_conflict (fun l => l) 3).rss_rowid_to_update_rowid
        = ({ src_rss_rowids := [5, UINT64_MAX], read_version := 3 } :
        ColumnPartialUpdateState).rss_rowid_to_update_rowid)
    ∧ ((({ src_rss_rowids := [5, UINT64_MAX], read_version := 3 } :
        ColumnPartialUpdateState).check_and_resolve_conflict (fun l => l) 3).insert_rowids
        = ({ src_rss_rowids := [5, UINT64_MAX], read_version := 3 } :
        ColumnPartialUpdateState).insert_rowids)
    ∧ (({ src_rss_rowids := [5, UINT64_MAX], read_version := 3 } :
        ColumnPartialUpdateState).check_and_resolve_conflict (fun l => l) 3
        = ({ src_rss_rowids := [5, UINT64_MAX], read_version := 3 } :
        ColumnPartialUpdateState)) :=
  C6_no_conflict_is_no_op
    { src_rss_rowids := [5, UINT64_MAX], read_version := 3 } (fun l => l) 3 rfl

/-- `RowsetSegmentStat` (rowset_column_update_state.h, lines 34-40). -/
structure RowsetSegmentStat where
  num_rows_written : Int := 0
  total_row_size : Int := 0
  total_data_size : Int := 0
  total_index_size : Int := 0
  num_segment : Int := 0
deriving Repr, DecidableEq

/-- Modelled from the spec: the body of `RowsetColumnUpdateState::finalize`
is not in the excerpt (rowset_column_update_state.h, lines 139-140, only
declares it).  An observable effect of finalize, per the spec (§6): a
delta-column-group registration, a primary-index mutation, or the one
rowset-metadata stat update. -/
inductive Effect where
  | registerDeltaColumnGroup (rssid : Nat) (version : Nat)
  | indexUpsert (key : Nat) (loc : Nat)
  | commitStats (stat : RowsetSegmentStat)
deriving Repr, DecidableEq

/-- The observable state finalize may mutate: the delta-column-group
registry, the primary index, and the rowset's committed stats. -/
structure TabletObservableState where
  delta_column_groups : List (Nat × Nat) := []
  index : List (Nat × Nat) := []
  stats : List RowsetSegmentStat := []
deriving Repr, DecidableEq

/-- Apply one committed effect to the observable state. -/
def applyEffect (t : TabletObservableState) : Effect → TabletObservableState
  | .registerDeltaColumnGroup r v =>
      { t with delta_column_groups := t.delta_column_groups ++ [(r, v)] }
  | .indexUpsert k l => { t with index := t.index ++ [(k, l)] }
  | .commitStats s => { t with stats := t.stats ++ [s] }

/-- Run finalize's fallible steps in order: the first failing step aborts
the whole call; otherwise the pending effects of all steps are collected in
order. -/
def runSteps : List (Except String (List Effect)) → Except String (List Effect)
  | [] => .ok []
  | .error e :: _ => .error e
  | .ok effs :: rest => (runSteps rest).map (effs ++ ·)

/-- Modelled from the spec: `RowsetColumnUpdateState::finalize` per §5/§7 —
conflict resolution, delta-file writes and new-segment writes are fallible
steps, each contributing pending observable effects; the primary index, the
delta-column-group registry and the rowset stats are only mutated in the
final commit step once every step has succeeded, so a failure at any step
reports the failure with nothing committed. -/
def finalize (steps : List (Except String (List Effect)))
    (t : TabletObservableState) : TabletObservableState × Status :=
  match runSteps steps with
  | .error e => (t, Status.err e)
  | .ok effs => (effs.foldl applyEffect t, Status.ok)

/-- C7 (spec-modelled): if `finalize()` does not return OK, no observable
effect has been committed — the delta-column-group registry, the primary
index and the rowset stats are exactly as before the call; the caller may
treat the failed call as if nothing happened. -/
theorem C7_finalize_all_or_nothing (steps : List (Except String (List Effect)))
    (t : TabletObservableState) (h : (finalize steps t).2 ≠ Status.ok) :
    ((finalize steps t).1.delta_column_groups = t.delta_column_groups)
    ∧ ((finalize steps t).1.index = t.index)
    ∧ ((finalize steps t).1.stats = t.stats)
    ∧ ((finalize steps t).1 = t) := by
  rw [finalize] at h ⊢
  cases hr : runSteps steps with
  | error e => exact ⟨rfl, rfl, rfl, rfl⟩
  | ok effs => rw [hr] at h; exact absurd rfl h

/-- Witness for C7: a finalize whose second of three delta-write steps
fails with a simulated IO error commits nothing. -/
theorem C7_finalize_all_or_nothing_witness :
    ((finalize
        [Except.ok [Effect.registerDeltaColumnGroup 1 7],
         Except.error "io error writing delta file",
         Except.ok [Effect.registerDeltaColumnGroup 2 7]]
        { delta_column_groups := [(9, 1)], index := [(4, 2)], stats := [{ num_rows_written := 10 }] }).1.delta_column_groups
      = ({ delta_column_groups := [(9, 1)], index := [(4, 2)], stats := [{ num_rows_written := 10 }] } : TabletObservableState).delta_column_groups)
    ∧ ((finalize
        [Except.ok [Effect.registerDeltaColumnGroup 1 7],
         Except.error "io error writing delta file",
         Except.ok [Effect.registerDeltaColumnGroup 2 7]]
        { delta_column_groups := [(9, 1)], index := [(4, 2)], stats := [{ num_rows_written := 10 }] }).1.index
      = ({ delta_column_groups := [(9, 1)], index := [(4, 2)], stats := [{ num_rows_written := 10 }] } : TabletObservableState).index)
    ∧ ((finalize
        [Except.ok [Effect.registerDeltaColumnGroup 1 7],
         Except.error "io error writing delta file",
         Except.ok [Effect.registerDeltaColumnGroup 2 7]]
        { delta_column_groups := [(9, 1)], index := [(4, 2)], stats := [{ num_rows_written := 10 }] }).1.stats
      = ({ delta_column_groups := [(9, 1)], index := [(4, 2)], stats := [{ num_rows_written := 10 }] } : TabletObservableState).stats)
    ∧ ((finalize
        [Except.ok [Effect.registerDeltaColumnGroup 1 7],
         Except.error "io error writing delta file",
         Except.ok [Effect.registerDeltaColumnGroup 2 7]]
        { delta_column_groups := [(9, 1)], index := [(4, 2)], stats := [{ num_rows_written := 10 }] }).1
      = { delta_column_groups := [(9, 1)], index := [(4, 2)], stats := [{ num_rows_written := 10 }] }) :=
  C7_finalize_all_or_nothing
    [Except.ok [Effect.registerDeltaColumnGroup 1 7],
     Except.error "io error writing delta file",
     Except.ok [Effect.registerDeltaColumnGroup 2 7]]
    { delta_column_groups := [(9, 1)], index := [(4, 2)], stats := [{ num_rows_written := 10 }] }
    (by decide)

/-- A row of an Iceberg position-delete file: the path of the data file the
delete applies to (`file_path` column) and the row position to delete
(`pos` column). -/
structure DeleteRow where
  file_path : String
  pos : Int
deriving Repr, DecidableEq

/-- The per-chunk row loop shared by both position-delete builders
(iceberg_delete_builder.cpp, lines 59-63 and 127-132): a row whose
`file_path` equals the builder's `_datafile_path` adds its `pos` to
`need_skip_rowids` (a `std::set<int64_t>`, modelled as `Finset Int`); every
other row is skipped. -/
def collectDeletePositions (datafile_path : String) (rows : List DeleteRow)
    (need_skip_rowids : Finset Int) : Finset Int :=
  rows.foldl
    (fun s r => if r.file_path = datafile_path then insert r.pos s else s)
    need_skip_rowids

/-- `ParquetPositionDeleteBuilder::build` (iceberg_delete_builder.cpp,
lines 41-72).  The delete-file iterator is modelled by the record batches
it yields (`batches`) followed by the first non-OK status of `has_next`
(`final`; `Status.endOfFile` when the file is exhausted); `init` models the
`RETURN_IF_ERROR(iter->init(...))` result.  After the loop, an end-of-file
`final` is converted to OK and anything else is returned as-is. -/
def ParquetPositionDeleteBuilder.build (init : Status) (datafile_path : String)
    (batches : List (List DeleteRow)) (final : Status)
    (need_skip_rowids : Finset Int) : Finset Int × Status :=
  if init ≠ Status.ok then (need_skip_rowids, init)
  else
    let skip := batches.foldl
      (fun s b => collectDeletePositions datafile_path b s) need_skip_rowids
    if final.is_end_of_file then (skip, Status.ok) else (skip, final)

/-- One loop iteration of `ORCPositionDeleteBuilder::build` whose
`read_next` returned OK: either `get_chunk` succeeded — with `schema_ok`
recording whether the chunk's slot map has the `file_path` and `pos`
columns — or `get_chunk` failed. -/
inductive OrcIterationResult where
  | chunk (schema_ok : Bool) (rows : List DeleteRow)
  | chunkError (msg : String)

/-- The read loop of `ORCPositionDeleteBuilder::build`
(iceberg_delete_builder.cpp, lines 100-133): `iters` are the iterations
whose `read_next` returned OK in order, `final` the status `read_next`
returns after them (end-of-file or a read error).  End-of-file returns OK
immediately; a read error, a `get_chunk` failure, or a chunk without the
required `file_path`/`pos` columns is returned as an error; matching rows
of each good chunk are collected into `need_skip_rowids`. -/
def ORCPositionDeleteBuilder.buildLoop (datafile_path : String) :
    List OrcIterationResult → Status → Finset Int → Finset Int × Status
  | [], final, skip =>
      if final.is_end_of_file then (skip, Status.ok) else (skip, final)
  | .chunk schema_ok rows :: rest, final, skip =>
      if schema_ok then
        ORCPositionDeleteBuilder.buildLoop datafile_path rest final
          (collectDeletePositions datafile_path rows skip)
      else
        (skip, Status.err
          "delete file schema doesn't meet requirement, need: [file_path, pos]")
  | .chunkError msg :: _, _, skip => (skip, Status.err msg)

/-- `ORCPositionDeleteBuilder::build` (iceberg_delete_builder.cpp, lines
74-134): `init` models the fallible setup before the loop (opening the
file, creating the ORC reader, timezone and reader initialisation), then
the read loop runs. -/
def ORCPositionDeleteBuilder.build (init : Status) (datafile_path : String)
    (iters : List OrcIterationResult) (final : Status)
    (need_skip_rowids : Finset Int) : Finset Int × Status :=
  if init ≠ Status.ok then (need_skip_rowids, init)
  else ORCPositionDeleteBuilder.buildLoop datafile_path iters final need_skip_rowids

lemma orcBuildLoop_eof (datafile_path : String)
    (iters : List OrcIterationResult)
    (hgood : ∀ it ∈ iters, ∃ rows, it = OrcIterationResult.chunk true rows) :
    ∀ skip, (ORCPositionDeleteBuilder.buildLoop datafile_path iters
        Status.endOfFile skip).2 = Status.ok := by
  induction iters with
  | nil => intro skip; simp [ORCPositionDeleteBuilder.buildLoop, Status.is_end_of_file]
  | cons it rest ih =>
      intro skip
      obtain ⟨rows, rfl⟩ := hgood it (List.mem_cons_self _ _)
      rw [ORCPositionDeleteBuilder.buildLoop, if_pos rfl]
      exact ih (fun x hx => hgood x (List.mem_cons_of_mem _ hx)) _

lemma orcBuildLoop_propagates (datafile_path : String)
    (iters : List OrcIterationResult)
    (hgood : ∀ it ∈ iters, ∃ rows, it = OrcIterationResult.chunk true rows)
    (final : Status) (hne : final.is_end_of_file = false) :
    ∀ skip, (ORCPositionDeleteBuilder.buildLoop datafile_path iters
        final skip).2 = final := by
  induction iters with
  | nil => intro skip; simp [ORCPositionDeleteBuilder.buildLoop, hne]
  | cons it rest ih =>
      intro skip
      obtain ⟨rows, rfl⟩ := hgood it (List.mem_cons_self _ _)
      rw [ORCPositionDeleteBuilder.buildLoop, if_pos rfl]
      exact ih (fun x hx => hgood x (List.mem_cons_of_mem _ hx)) _

lemma orcBuildLoop_ne_eof (datafile_path : String)
    (iters : List OrcIterationResult) (final : Status) :
    ∀ skip, (ORCPositionDeleteBuilder.buildLoop datafile_path iters
        final skip).2 ≠ Status.endOfFile := by
  induction iters with
  | nil =>
      intro skip
      rw [ORCPositionDeleteBuilder.buildLoop]
      cases hf : final.is_end_of_file with
      | true => simp
      | false =>
          rw [if_neg (by simp [hf])]
          exact is_end_of_file_false_iff.mp hf
  | cons it rest ih =>
      intro skip
      match it with
      | .chunk schema_ok rows =>
          rw [ORCPositionDeleteBuilder.buildLoop]
          cases schema_ok with
          | true => exact ih _
          | false => simp
      | .chunkError msg =>
          rw [ORCPositionDeleteBuilder.buildLoop]
          simp

/-- C8: the position-delete builders convert the end-of-file sentinel into
a successful return.  With the pre-loop setup succeeding: (i) when the
Parquet builder's sequential read terminates with end-of-file, `build`
returns OK; (ii) a non-end-of-file terminating status is propagated to the
caller unchanged; (iii)-(iv) the same for the ORC builder, whose loop
otherwise ran only successful reads; (v)-(vi) neither builder ever reports
end-of-file to its caller. -/
theorem C8_eof_not_an_error (datafile_path : String)
    (batches : List (List DeleteRow)) (iters : List OrcIterationResult)
    (final : Status) (skip1 skip2 : Finset Int)
    (hgood : ∀ it ∈ iters, ∃ rows, it = OrcIterationResult.chunk true rows)
    (hne : final.is_end_of_file = false) :
    ((ParquetPositionDeleteBuilder.build Status.ok datafile_path batches
        Status.endOfFile skip1).2 = Status.ok)
    ∧ ((ParquetPositionDeleteBuilder.build Status.ok datafile_path batches
        final skip1).2 = final)
    ∧ ((ORCPositionDeleteBuilder.build Status.ok datafile_path iters
        Status.endOfFile skip2).2 = Status.ok)
    ∧ ((ORCPositionDeleteBuilder.build Status.ok datafile_path iters
        final skip2).2 = final)
    ∧ ((ParquetPositionDeleteBuilder.build Status.ok datafile_path batches
        final skip1).2 ≠ Status.endOfFile)
    ∧ ((ORCPositionDeleteBuilder.build Status.ok datafile_path iters
        final skip2).2 ≠ Status.endOfFile) := by
  refine ⟨?_, ?_, ?_, ?_, ?_, ?_⟩
  · simp [ParquetPositionDeleteBuilder.build, Status.is_end_of_file]
  · simp [ParquetPositionDeleteBuilder.build, hne]
  · rw [ORCPositionDeleteBuilder.build, if_neg (by simp)]
    exact orcBuildLoop_eof datafile_path iters hgood skip2
  · rw [ORCPositionDeleteBuilder.build, if_neg (by simp)]
    exact orcBuildLoop_propagates datafile_path iters hgood final hne skip2
  · simp only [ParquetPositionDeleteBuilder.build, if_neg (by simp : ¬ Status.ok ≠ Status.ok)]
    rw [if_neg (by simp [hne])]
    exact is_end_of_file_false_iff.mp hne
  · rw [ORCPositionDeleteBuilder.build, if_neg (by simp)]
    exact orcBuildLoop_ne_eof datafile_path iters final skip2

/-- Witness for C8: one ORC chunk with the required columns, one Parquet
batch, and a terminating read error. -/
theorem C8_eof_not_an_error_witness :
    ((ParquetPositionDeleteBuilder.build Status.ok "a.parquet" [[{ file_path := "a.parquet", pos := 1 }]]
        Status.endOfFile ∅).2 = Status.ok)
    ∧ ((ParquetPositionDeleteBuilder.build Status.ok "a.parquet" [[{ file_path := "a.parquet", pos := 1 }]]
        (Status.err "io") ∅).2 = Status.err "io")
    ∧ ((ORCPositionDeleteBuilder.build Status.ok "a.parquet" [OrcIterationResult.chunk true [{ file_path := "a.parquet", pos := 1 }]]
        Status.endOfFile ∅).2 = Status.ok)
    ∧ ((ORCPositionDeleteBuilder.build Status.ok "a.parquet" [OrcIterationResult.chunk true [{ file_path := "a.parquet", pos := 1 }]]
        (Status.err "io") ∅).2 = Status.err "io")
    ∧ ((ParquetPositionDeleteBuilder.build Status.ok "a.parquet" [[{ file_path := "a.parquet", pos := 1 }]]
        (Status.err "io") ∅).2 ≠ Status.endOfFile)
    ∧ ((ORCPositionDeleteBuilder.build Status.ok "a.parquet" [OrcIterationResult.chunk true [{ file_path := "a.parquet", pos := 1 }]]
        (Status.err "io") ∅).2 ≠ Status.endOfFile) :=
  C8_eof_not_an_error "a.parquet" [[{ file_path := "a.parquet", pos := 1 }]]
    [OrcIterationResult.chunk true [{ file_path := "a.parquet", pos := 1 }]]
    (Status.err "io") ∅ ∅
    (fun it h => ⟨[{ file_path := "a.parquet", pos := 1 }], by
      rw [List.mem_singleton] at h; exact h⟩)
    rfl

/-- The positions of the delete rows aimed at `datafile_path`: the `pos`
values of exactly those rows whose `file_path` equals it. -/
def matchingPositions (datafile_path : String) (rows : List DeleteRow) :
    Finset Int :=
  ((rows.filter (fun r => r.file_path = datafile_path)).map DeleteRow.pos).toFinset

lemma collectDeletePositions_cons (datafile_path : String) (r : DeleteRow)
    (rest : List DeleteRow) (skip : Finset Int) :
    collectDeletePositions datafile_path (r :: rest) skip =
      collectDeletePositions datafile_path rest
        (if r.file_path = datafile_path then insert r.pos skip else skip) := rfl

lemma collectDeletePositions_eq (datafile_path : String)
    (rows : List DeleteRow) :
    ∀ skip, collectDeletePositions datafile_path rows skip =
      skip ∪ matchingPositions datafile_path rows := by
  induction rows with
  | nil => intro skip; simp [collectDeletePositions, matchingPositions]
  | cons r rest ih =>
      intro skip
      rw [collectDeletePositions_cons, ih]
      by_cases h : r.file_path = datafile_path
      · rw [if_pos h]
        ext a
        simp [matchingPositions, h]
      · rw [if_neg h]
        ext a
        simp [matchingPositions, h]

lemma parquet_fold_eq (datafile_path : String)
    (batches : List (List DeleteRow)) :
    ∀ skip, batches.foldl
        (fun s b => collectDeletePositions datafile_path b s) skip =
      skip ∪ matchingPositions datafile_path batches.flatten := by
  induction batches with
  | nil => intro skip; simp [matchingPositions]
  | cons b rest ih =>
      intro skip
      rw [List.foldl_cons, ih, collectDeletePositions_eq]
      ext a
      simp [matchingPositions]

lemma orcBuildLoop_fst_eq (datafile_path : String)
    (chunks : List (List DeleteRow)) (final : Status) :
    ∀ skip, (ORCPositionDeleteBuilder.buildLoop datafile_path
        (chunks.map (OrcIterationResult.chunk true)) final skip).1 =
      skip ∪ matchingPositions datafile_path chunks.flatten := by
  induction chunks with
  | nil =>
      intro skip
      rw [List.map_nil, ORCPositionDeleteBuilder.buildLoop]
      by_cases h : final.is_end_of_file
      · rw [if_pos h]; simp [matchingPositions]
      · rw [if_neg h]; simp [matchingPositions]
  | cons c rest ih =>
      intro skip
      rw [List.map_cons, ORCPositionDeleteBuilder.buildLoop, if_pos rfl, ih,
        collectDeletePositions_eq]
      ext a
      simp [matchingPositions]

/-- C10: a successful position-delete build adds to `need_skip_rowids`
exactly the `pos` values of the delete-file rows whose `file_path` equals
the builder's target data-file path — the result is the old set united
with those positions, so rows aimed at any other data file leave
`need_skip_rowids` unchanged.  Stated for the Parquet builder over its
batches and for the ORC builder over a successful run of schema-valid
chunks. -/
theorem C10_skip_rowids_exact (datafile_path : String)
    (batches chunks : List (List DeleteRow)) (skip1 skip2 : Finset Int) :
    ((ParquetPositionDeleteBuilder.build Status.ok datafile_path batches
        Status.endOfFile skip1).1
      = skip1 ∪ matchingPositions datafile_path batches.flatten)
    ∧ ((ORCPositionDeleteBuilder.build Status.ok datafile_path
        (chunks.map (OrcIterationResult.chunk true)) Status.endOfFile skip2).1
      = skip2 ∪ matchingPositions datafile_path chunks.flatten) := by
  constructor
  · rw [ParquetPositionDeleteBuilder.build, if_neg (by simp)]
    simp only [Status.is_end_of_file, if_pos]
    exact parquet_fold_eq datafile_path batches skip1
  · rw [ORCPositionDeleteBuilder.build, if_neg (by simp)]
    exact orcBuildLoop_fst_eq datafile_path chunks Status.endOfFile skip2

/-- A JSON value as `JsonEach::process` distinguishes them
(json_each.cpp, lines 34-50): an object with ordered key/value fields, an
array, or anything else (scalars, null), which expands to nothing. -/
inductive Json where
  | obj (fields : List (String × Json))
  | arr (elems : List Json)
  | scalar

/-- The per-row expansion of `JsonEach::process` (json_each.cpp, lines
34-50): an object yields its key/value pairs in order; an array yields
(stringified index, element) pairs in order; any other value yields no
pairs. -/
def jsonRowPairs : Json → List (String × Json)
  | .obj fields => fields
  | .arr elems => elems.enum.map (fun p => (toString p.1, p.2))
  | .scalar => []

/-- The row loop of `JsonEach::process` (json_each.cpp, lines 30-53), with
its carried state: the key column, the value column, the offset column
(seeded with one 0 entry before the loop) and the running `offset`
counter; after each input row the current `offset` is appended to the
offset column. -/
def jsonEachLoop :
    List Json → List String → List Json → List Nat → Nat →
      List String × List Json × List Nat
  | [], keys, values, offsets, _ => (keys, values, offsets)
  | j :: rest, keys, values, offsets, offset =>
      jsonEachLoop rest (keys ++ (jsonRowPairs j).map Prod.fst)
        (values ++ (jsonRowPairs j).map Prod.snd)
        (offsets ++ [offset + (jsonRowPairs j).length])
        (offset + (jsonRowPairs j).length)

/-- The result of `JsonEach::process`: the key and value output columns,
the offset column, and the `*eos` flag. -/
structure JsonEachResult where
  keys : List String
  values : List Json
  offsets : List Nat
  eos : Bool

/-- `JsonEach::process` (json_each.cpp, lines 12-58): expand every input
row, appending to the key/value columns and closing each row in the offset
column, then set `*eos = true`. -/
def JsonEach.process (input : List Json) : JsonEachResult :=
  let r := jsonEachLoop input [] [] [0] 0
  { keys := r.1, values := r.2.1, offsets := r.2.2, eos := true }

lemma getD_zero_append {l l2 : List Nat} (h : l ≠ []) :
    (l ++ l2).getD 0 0 = l.getD 0 0 := by
  cases l with
  | nil => exact absurd rfl h
  | cons a t => rfl

lemma jsonEachLoop_spec (input : List Json) :
    ∀ keys values offsets offset,
      keys.length = values.length →
      offset = keys.length →
      offsets ≠ [] →
      offsets.getLast? = some offset →
      (∀ b ∈ offsets, b ≤ offset) →
      List.Pairwise (· ≤ ·) offsets →
      ((jsonEachLoop input keys values offsets offset).1.length
          = (jsonEachLoop input keys values offsets offset).2.1.length)
      ∧ ((jsonEachLoop input keys values offsets offset).2.2.length
          = offsets.length + input.length)
      ∧ ((jsonEachLoop input keys values offsets offset).2.2.getD 0 0
          = offsets.getD 0 0)
      ∧ List.Pairwise (· ≤ ·) (jsonEachLoop input keys values offsets offset).2.2
      ∧ ((jsonEachLoop input keys values offsets offset).2.2.getLast?
          = some (jsonEachLoop input keys values offsets offset).1.length) := by
  induction input with
  | nil =>
      intro keys values offsets offset h1 h2 _ h4 _ h6
      refine ⟨h1, by simp [jsonEachLoop], rfl, h6, ?_⟩
      rw [jsonEachLoop]
      rw [h4, h2]
  | cons j rest ih =>
      intro keys values offsets offset h1 h2 h3 h4 h5 h6
      rw [jsonEachLoop]
      have hlen : (keys ++ (jsonRowPairs j).map Prod.fst).length
          = (values ++ (jsonRowPairs j).map Prod.snd).length := by
        simp [h1]
      have hoff : offset + (jsonRowPairs j).length
          = (keys ++ (jsonRowPairs j).map Prod.fst).length := by
        simp [h2]
      have hne : offsets ++ [offset + (jsonRowPairs j).length] ≠ [] := by
        simp
      have hlast : (offsets ++ [offset + (jsonRowPairs j).length]).getLast?
          = some (offset + (jsonRowPairs j).length) :=
        List.getLast?_concat _
      have hub : ∀ b ∈ offsets ++ [offset + (jsonRowPairs j).length],
          b ≤ offset + (jsonRowPairs j).length := by
        intro b hb
        rcases List.mem_append.mp hb with hb' | hb'
        · have := h5 b hb'; omega
        · rw [List.mem_singleton] at hb'; omega
      have hpw : List.Pairwise (· ≤ ·)
          (offsets ++ [offset + (jsonRowPairs j).length]) := by
        rw [List.pairwise_append]
        refine ⟨h6, by simp, ?_⟩
        intro a ha b hb
        rw [List.mem_singleton] at hb
        subst hb
        have := h5 a ha
        omega
      obtain ⟨g1, g2, g3, g4, g5⟩ :=
        ih (keys ++ (jsonRowPairs j).map Prod.fst)
          (values ++ (jsonRowPairs j).map Prod.snd)
          (offsets ++ [offset + (jsonRowPairs j).length])
          (offset + (jsonRowPairs j).length)
          hlen hoff hne hlast hub hpw
      refine ⟨g1, ?_, ?_, g4, g5⟩
      · rw [g2]; simp; omega
      · rw [g3, getD_zero_append h3]

/-- C9: for every input column of JSON rows, `JsonEach::process` returns a
key column and a value column of equal length, together with an offset
column of exactly `n + 1` entries that starts at 0, is non-decreasing, and
whose last entry equals the number of output rows (the key column's
length); `*eos` is always set to true. -/
theorem C9_json_each_invariant (input : List Json) :
    ((JsonEach.process input).keys.length
        = (JsonEach.process input).values.length)
    ∧ ((JsonEach.process input).offsets.length = input.length + 1)
    ∧ ((JsonEach.process input).offsets.getD 0 0 = 0)
    ∧ List.Pairwise (· ≤ ·) (JsonEach.process input).offsets
    ∧ ((JsonEach.process input).offsets.getLast?
        = some (JsonEach.process input).keys.length)
    ∧ ((JsonEach.process input).eos = true) := by
  obtain ⟨g1, g2, g3, g4, g5⟩ :=
    jsonEachLoop_spec input [] [] [0] 0 rfl rfl (by simp) (by simp)
      (by simp) (by simp)
  refine ⟨g1, ?_, ?_, g4, g5, rfl⟩
  · show (jsonEachLoop input [] [] [0] 0).2.2.length = input.length + 1
    rw [g2]; simp; omega
  · show (jsonEachLoop input [] [] [0] 0).2.2.getD 0 0 = 0
    rw [g3]; rfl

end StarRocks
